import Mathlib

/-!
Verification of the typosquatting detection engine (`src/lib/typosquat.js`)
of the safesurfer repository.

The JavaScript module is shallowly embedded: strings are `String` (lists of
characters), JS numbers arising here are `Nat` (all score arithmetic is
non-negative integer arithmetic), fallible operations return `Option`.
Character case mapping is modelled on the ASCII range, which covers every
character the engine's substitution rules and reference tables inspect.
-/

namespace SafeSurfer

/-- Reference brand set from `TyposquatDetector.knownDomains`
(`src/lib/typosquat.js` lines 6-18). -/
def knownDomains : List String := [
  "google", "facebook", "amazon", "apple", "microsoft", "netflix", "paypal",
  "instagram", "twitter", "linkedin", "youtube", "whatsapp", "telegram",
  "reddit", "github", "stackoverflow", "dropbox", "spotify", "adobe",
  "salesforce", "oracle", "ibm", "intel", "nvidia", "samsung", "sony",
  "walmart", "ebay", "alibaba", "zoom", "slack", "discord", "twitch",
  "pinterest", "snapchat", "tiktok", "uber", "airbnb", "booking",
  "expedia", "chase", "bankofamerica", "wellsfargo", "citibank", "hsbc",
  "barclays", "capitalone", "americanexpress", "visa", "mastercard",
  "coinbase", "binance", "kraken", "blockchain", "metamask", "opensea",
  "steam", "epicgames", "roblox", "minecraft", "playstation", "xbox",
  "nintendo", "att", "verizon", "tmobile", "comcast", "spectrum"]

/-- Homograph lookalike table from `TyposquatDetector.homoglyphs`
(`src/lib/typosquat.js` lines 21-44).  Static data; the analysis functions
below never read it (see claim C8). -/
def homoglyphs : List (Char × List String) := [
  ('a', ["@", "4", "а", "ą", "α"]),
  ('b', ["8", "ь", "β"]),
  ('c', ["(", "с", "ç", "¢"]),
  ('d', ["đ", "ð"]),
  ('e', ["3", "е", "ё", "є", "ę"]),
  ('g', ["9", "ğ"]),
  ('h', ["һ"]),
  ('i', ["1", "l", "!", "|", "і", "ı"]),
  ('k', ["κ"]),
  ('l', ["1", "i", "|", "ł"]),
  ('m', ["rn", "м"]),
  ('n', ["п", "ń"]),
  ('o', ["0", "о", "ø", "ο"]),
  ('p', ["р", "ρ"]),
  ('s', ["5", "$", "ś", "ş"]),
  ('t', ["7", "+", "ť"]),
  ('u', ["υ", "ц", "ù"]),
  ('v', ["ν", "υ"]),
  ('w', ["vv", "ω"]),
  ('x', ["х", "×"]),
  ('y', ["у", "ý"]),
  ('z', ["2", "ź", "ż"])]

/-- Suspicious TLD list from `TyposquatDetector.suspiciousTLDs`
(`src/lib/typosquat.js` lines 47-50). -/
def suspiciousTLDs : List String := [
  "xyz", "tk", "ml", "ga", "cf", "gq", "top", "club", "online", "site",
  "website", "space", "fun", "icu", "buzz", "monster", "cam", "uno"]

/-! ### Levenshtein distance (`levenshteinDistance`, lines 53-72)

The source fills a `(m+1) x (n+1)` dynamic-programming table row by row:
`dp[i][0] = i`, `dp[0][j] = j`, and
`dp[i][j] = dp[i-1][j-1]` when `str1[i-1] = str2[j-1]`, otherwise
`1 + min(dp[i-1][j], dp[i][j-1], dp[i-1][j-1])`.
We embed the row-by-row fill: `levRowGo` is the inner `j` loop (carrying
`left = dp[i][j-1]` and the suffix of the previous row starting at the
diagonal entry `dp[i-1][j-1]`), `levLoop` is the outer `i` loop.
JS evaluates eagerly — every table cell holds an already-computed number —
so each cell is forced to a numeral (`natCase`) before it is stored and
reused, and characters are compared by their code (as JS `===` compares
code units). -/

/-- Eager evaluation point: forces a `Nat` to a numeral before passing it
on, modelling JS call-by-value array cells. `natCase n f = f n`. -/
def natCase {α : Type} (n : Nat) (f : Nat → α) : α :=
  match n with
  | 0 => f 0
  | k + 1 => f (k + 1)

/-- The character codes of a string, each forced to a numeral
(JS strings are sequences of already-evaluated code units). -/
def toCodes : List Char → List Nat
  | [] => []
  | c :: cs => natCase c.toNat fun k => k :: toCodes cs

/-- Inner loop of the DP table fill: given the current cell to the left,
the previous row from the diagonal onwards, and the remaining character
codes of `str2`, produce the rest of the current row. -/
def levRowGo (a : Nat) : Nat → List Nat → List Nat → List Nat
  | left, diag :: above :: rest, b :: bs =>
    natCase (if a = b then diag else 1 + Nat.min (Nat.min above left) diag) fun cur =>
      cur :: levRowGo a cur (above :: rest) bs
  | _, _, _ => []

/-- One full row of the DP table: `dp[i][0] = i` followed by the inner loop. -/
def levNextRow (a : Nat) (i : Nat) (prev : List Nat) (bs : List Nat) : List Nat :=
  i :: levRowGo a i prev bs

/-- Outer loop of the DP table fill over the character codes of `str1`,
threading the current row. -/
def levLoop (bs : List Nat) : List Nat → Nat → List Nat → List Nat
  | [], _, prev => prev
  | a :: as, i, prev => levLoop bs as (i + 1) (levNextRow a (i + 1) prev bs)

/-- `TyposquatDetector.levenshteinDistance` (lines 53-72): final cell
`dp[m][n]` of the table. -/
def levenshteinDistance (str1 str2 : String) : Nat :=
  let a := toCodes str1.data
  let b := toCodes str2.data
  (levLoop b a 0 (List.range (b.length + 1))).getD b.length 0

/-- The textbook index recurrence for the DP table of `levenshteinDistance`:
`levCell A B i j` is the value `dp[i][j]` that the row-by-row fill stores
(distance between the length-`i` prefix of `A` and the length-`j` prefix of
`B`).  Used to reason about the table fill. -/
def levCell (A B : List Nat) : Nat → Nat → Nat
  | 0, j => j
  | i + 1, 0 => i + 1
  | i + 1, j + 1 =>
    if A.getD i 0 = B.getD j 0 then levCell A B i j
    else 1 + Nat.min (Nat.min (levCell A B i (j + 1)) (levCell A B (i + 1) j)) (levCell A B i j)
  termination_by i j => (i, j)

/-! ### Normalization (`normalizeString`, lines 75-94)

`str.toLowerCase()` followed by twelve global regex replacements in a fixed
order.  A single-character pattern replace is a character map; a
two-character pattern replace scans left to right without overlap. -/

/-- Global replacement of one character (models `.replace(/p/g, r)`). -/
def replaceChar (p r : Char) (l : List Char) : List Char :=
  l.map fun c => if c = p then r else c

/-- Global left-to-right non-overlapping replacement of a two-character
pattern `pq` by the single character `r` (models `.replace(/pq/g, r)`). -/
def replacePair (p q r : Char) : List Char → List Char
  | [] => []
  | [c] => [c]
  | c :: d :: rest =>
    if c = p ∧ d = q then r :: replacePair p q r rest
    else c :: replacePair p q r (d :: rest)

/-- The ordered substitution chain of `normalizeString` (lines 79-91). -/
def normalizeList (l : List Char) : List Char :=
  replacePair 'v' 'v' 'w' (replacePair 'r' 'n' 'm'
    (replaceChar '$' 's' (replaceChar '@' 'a'
    (replaceChar '9' 'g' (replaceChar '8' 'b'
    (replaceChar '7' 't' (replaceChar '5' 's'
    (replaceChar '4' 'a' (replaceChar '3' 'e'
    (replaceChar '1' 'l' (replaceChar '0' 'o' l)))))))))))

/-- JS `toLowerCase`, modelled on the ASCII range. -/
def jsToLower (s : String) : String := ⟨s.data.map Char.toLower⟩

/-- `TyposquatDetector.normalizeString` (lines 75-94). -/
def normalizeString (s : String) : String := ⟨normalizeList (s.data.map Char.toLower)⟩

/-! ### Domain decomposition (lines 97-129) -/

/-- JS `String.prototype.split(".")`: splits on every dot, keeping empty
segments; the empty string yields one empty segment. -/
def splitOnDot : List Char → List (List Char)
  | [] => [[]]
  | c :: rest =>
    if c = '.' then [] :: splitOnDot rest
    else
      match splitOnDot rest with
      | [] => [[c]]
      | p :: ps => (c :: p) :: ps

/-- JS `String.prototype.includes`: substring containment test. -/
def hasSubstring (needle : List Char) : List Char → Bool
  | [] => needle.isEmpty
  | c :: rest => needle.isPrefixOf (c :: rest) || hasSubstring needle rest

/-- JS `a.includes(b)` on strings. -/
def jsIncludes (s sub : String) : Bool := hasSubstring sub.data s.data

/-- `TyposquatDetector.getBaseDomain` (lines 111-122): second-to-last label,
except that a generic second-level label (`co`, `com`, ...) with at least
three labels present shifts to the third-from-last. -/
def getBaseDomainList (hostname : List Char) : List Char :=
  let parts := splitOnDot hostname
  if 2 ≤ parts.length then
    let secondLast := parts.getD (parts.length - 2) []
    if (["co", "com", "org", "net", "gov", "edu"].map String.data).contains secondLast
        ∧ 3 ≤ parts.length then
      parts.getD (parts.length - 3) []
    else secondLast
  else parts.getD 0 []

/-- String-level wrapper for `getBaseDomain`. -/
def getBaseDomain (hostname : String) : String := ⟨getBaseDomainList hostname.data⟩

/-- `TyposquatDetector.getTLD` (lines 125-128): last dot-separated label. -/
def getTLD (hostname : String) : String :=
  let parts := splitOnDot hostname.data
  ⟨parts.getD (parts.length - 1) []⟩

/-! ### Subdomain trick check (`checkSubdomainTrick`, lines 131-148) -/

/-- The inner loop of `checkSubdomainTrick`: does any label other than the
last two equal the brand or contain it as a substring? -/
def subdomainMatches (known : String) (parts : List (List Char)) : Bool :=
  (parts.take (parts.length - 2)).any fun p => p == known.data || hasSubstring known.data p

/-- The outer loop of `checkSubdomainTrick`: first brand (in reference-set
order) matched by some eligible label. -/
def subdomainScan (parts : List (List Char)) : List String → Option String
  | [] => none
  | known :: rest =>
    if subdomainMatches known parts then some known
    else subdomainScan parts rest

/-- `TyposquatDetector.checkSubdomainTrick` (lines 131-148): fires only when
more than three labels exist; returns the reason text and the matched brand. -/
def checkSubdomainTrick (hostname : String) : Option (String × String) :=
  let parts := splitOnDot hostname.data
  if 3 < parts.length then
    match subdomainScan parts knownDomains with
    | some known =>
      some ("Subdomain trick detected: \"" ++ known ++ "\" used as subdomain", known)
    | none => none
  else none

/-! ### URL hostname extraction (`extractDomain`, lines 97-108) -/

/-- JS `String.prototype.trim`, modelled for the common whitespace characters. -/
def jsTrim (s : String) : String :=
  let ws : Char → Bool := fun c =>
    c == ' ' || c == '\t' || c == '\n' || c == '\r' || c == '\x0b' || c == '\x0c'
  ⟨((s.data.dropWhile ws).reverse.dropWhile ws).reverse⟩

/-- List-level `startsWith`. -/
def startsWithList (pre l : List Char) : Bool := pre.isPrefixOf l

/-- Modelled from the spec: the WHATWG `URL` constructor used by
`extractDomain` (§4.1 Domain Parser) is a browser builtin absent from the
repository.  We model its hostname extraction for `http(s)` URLs: the
authority is the text following the scheme separator up to the first `/`,
`?` or `#`; userinfo up to a final `@` is dropped; a `:port` suffix is
dropped; construction fails (the constructor throws, the catch yields null)
when the host is empty or contains whitespace. -/
def urlHostname (s : List Char) : Option (List Char) :=
  let afterScheme :=
    if startsWithList "https://".data s then s.drop 8
    else if startsWithList "http://".data s then s.drop 7
    else s
  let authority := afterScheme.takeWhile fun c => c != '/' && c != '?' && c != '#'
  let afterUser :=
    if authority.contains '@' then (authority.reverse.takeWhile (· != '@')).reverse
    else authority
  let host := afterUser.takeWhile (· != ':')
  if host.isEmpty ||
      host.any (fun c => c == ' ' || c == '\t' || c == '\n' || c == '\r') then none
  else some host

/-- `TyposquatDetector.extractDomain` (lines 97-108): trim, default the
scheme to `https://`, parse, lowercase the hostname; null on failure. -/
def extractDomain (url : String) : Option String :=
  let cleanUrl := jsTrim url
  let cleanUrl :=
    if !(startsWithList "http://".data cleanUrl.data
          || startsWithList "https://".data cleanUrl.data) then
      ⟨"https://".data ++ cleanUrl.data⟩
    else cleanUrl
  (urlHostname cleanUrl.data).map fun h => jsToLower ⟨h⟩

/-! ### Main analysis (`analyzeUrl`, lines 151-227) -/

/-- The analysis result object (lines 152-158). -/
structure AnalysisResult where
  url : String
  isSuspicious : Bool
  riskScore : Nat
  reasons : List String
  matchedDomain : Option String
deriving DecidableEq

/-- The freshly initialized result object (lines 152-158). -/
def initResult (url : String) : AnalysisResult :=
  { url := url, isSuspicious := false, riskScore := 0, reasons := [], matchedDomain := none }

/-- Mutation of the result by the subdomain-trick signal (lines 169-176). -/
def applySubdomainCheck (r : AnalysisResult) : Option (String × String) → AnalysisResult
  | none => r
  | some (reason, md) =>
    { r with isSuspicious := true, riskScore := r.riskScore + 80,
             reasons := r.reasons ++ [reason], matchedDomain := some md }

/-- The brand loop (lines 179-215): iterate the reference brands in order,
skip an exact base-label match, and stop at the first firing signal,
returning its score contribution, reason text, and matched brand. -/
def brandLoop (baseDomain normalizedDomain : String) : List String → Option (Nat × String × String)
  | [] => none
  | known :: rest =>
    if baseDomain = known then brandLoop baseDomain normalizedDomain rest
    else
      natCase (levenshteinDistance normalizedDomain known) fun distance =>
      if 0 < distance ∧ distance ≤ 2 then
        some (70, "Similar to \"" ++ known ++ "\" (" ++ toString distance
          ++ " character difference)", known)
      else if jsIncludes baseDomain known ∧ baseDomain ≠ known then
        some (60, "Contains brand name \"" ++ known ++ "\"", known)
      else if normalizedDomain ≠ baseDomain then
        natCase (levenshteinDistance normalizedDomain known) fun normalizedDistance =>
        if normalizedDistance = 0 then
          some (90, "Homograph attack: looks like \"" ++ known ++ "\"", known)
        else brandLoop baseDomain normalizedDomain rest
      else brandLoop baseDomain normalizedDomain rest

/-- Mutation of the result by the first firing brand-loop signal
(lines 184-214). -/
def applyBrandSignal (r : AnalysisResult) : Option (Nat × String × String) → AnalysisResult
  | none => r
  | some (pts, reason, known) =>
    { r with isSuspicious := true, riskScore := r.riskScore + pts,
             reasons := r.reasons ++ [reason], matchedDomain := some known }

/-- Mutation of the result by the suspicious-TLD bonus (lines 218-221):
fires only when the TLD is suspicious and a brand was already matched. -/
def applyTldBonus (r : AnalysisResult) (tld : String) : AnalysisResult :=
  if suspiciousTLDs.contains tld ∧ r.matchedDomain.isSome then
    { r with riskScore := r.riskScore + 20,
             reasons := r.reasons ++ ["Suspicious TLD: ." ++ tld] }
  else r

/-- The body of `analyzeUrl` (lines 151-227), parametric in the hostname
extraction result: early return on a null hostname, then the sequential
signal accumulation and the final clamp of the score at 100. -/
def analyzeWith (hostname? : Option String) (url : String) : AnalysisResult :=
  match hostname? with
  | none => initResult url
  | some hostname =>
    let baseDomain := getBaseDomain hostname
    let normalizedDomain := normalizeString baseDomain
    let tld := getTLD hostname
    let r := applySubdomainCheck (initResult url) (checkSubdomainTrick hostname)
    let r := applyBrandSignal r (brandLoop baseDomain normalizedDomain knownDomains)
    let r := applyTldBonus r tld
    { r with riskScore := Nat.min r.riskScore 100 }

/-- `TyposquatDetector.analyzeUrl` (lines 151-227). -/
def analyzeUrl (url : String) : AnalysisResult :=
  analyzeWith (extractDomain url) url

/-- A brand's own canonical URL analyzes as not suspicious (the property
checked brand-by-brand for claim C3). -/
def brandUrlSafe (B : String) : Bool :=
  !(analyzeUrl ("https://" ++ B ++ ".com")).isSuspicious

/-! ### Spec-side normalizer (for the refinement claim C8)

The spec (§4.2) describes the normalizer as a fixed ordered rule list
`pattern → replacement` applied globally left-to-right after lowercasing.
`specNormalize` below follows those words with a generic pattern replacer,
to be compared with the source-derived `normalizeString`. -/

/-- Generic global left-to-right non-overlapping replacement of a pattern,
with explicit fuel (each step consumes at least one character, so
`l.length` fuel suffices). -/
def replaceAllFuel : Nat → List Char → List Char → List Char → List Char
  | 0, _, _, l => l
  | _ + 1, _, _, [] => []
  | fuel + 1, pat, rep, c :: rest =>
    if pat.isPrefixOf (c :: rest) then
      rep ++ replaceAllFuel fuel pat rep ((c :: rest).drop pat.length)
    else c :: replaceAllFuel fuel pat rep rest

/-- Global replacement of a pattern throughout a string, as the spec's
"applied in a fixed order over the whole label" describes. -/
def jsReplaceAll (pat rep l : List Char) : List Char :=
  replaceAllFuel l.length pat rep l

/-- The spec's ordered substitution list (§4.2): digit-for-letter, then
symbol-for-letter, then the multi-character rules. -/
def specRules : List (List Char × List Char) :=
  [(['0'], ['o']), (['1'], ['l']), (['3'], ['e']), (['4'], ['a']),
   (['5'], ['s']), (['7'], ['t']), (['8'], ['b']), (['9'], ['g']),
   (['@'], ['a']), (['$'], ['s']), (['r', 'n'], ['m']), (['v', 'v'], ['w'])]

/-- The normalizer as the spec words it: lowercase, then fold the ordered
rule list over the label. -/
def specNormalize (s : String) : String :=
  ⟨specRules.foldl (fun l pr => jsReplaceAll pr.1 pr.2 l) (s.data.map Char.toLower)⟩

/-! ## Supporting lemmas -/

theorem natCase_eq {α : Type} (n : Nat) (f : Nat → α) : natCase n f = f n := by
  cases n <;> rfl

theorem levCell_zero_left (A B : List Nat) (j : Nat) : levCell A B 0 j = j := by
  simp [levCell]

theorem levCell_zero_right (A B : List Nat) (i : Nat) : levCell A B i 0 = i := by
  cases i <;> simp [levCell]

theorem levCell_succ_succ (A B : List Nat) (i j : Nat) :
    levCell A B (i + 1) (j + 1) =
      if A.getD i 0 = B.getD j 0 then levCell A B i j
      else 1 + Nat.min (Nat.min (levCell A B i (j + 1)) (levCell A B (i + 1) j))
        (levCell A B i j) := by
  simp [levCell]

/-- The DP recurrence is symmetric in its two strings. -/
theorem levCell_symm (A B : List Nat) : ∀ i j, levCell A B i j = levCell B A j i := by
  intro i
  induction i with
  | zero => intro j; rw [levCell_zero_left, levCell_zero_right]
  | succ i ih =>
    intro j
    induction j with
    | zero => rw [levCell_zero_right, levCell_zero_left]
    | succ j ihj =>
      rw [levCell_succ_succ, levCell_succ_succ, ih j, ih (j + 1), ihj]
      by_cases hc : A.getD i 0 = B.getD j 0
      · rw [if_pos hc, if_pos hc.symm]
      · have hc' : ¬B.getD j 0 = A.getD i 0 := fun h => hc h.symm
        rw [if_neg hc, if_neg hc']
        simp only [Nat.min_def]
        split_ifs <;> omega

/-- The DP recurrence vanishes on the diagonal when both strings coincide. -/
theorem levCell_diag (A : List Nat) : ∀ i, levCell A A i i = 0 := by
  intro i
  induction i with
  | zero => rw [levCell_zero_left]
  | succ i ih => rw [levCell_succ_succ]; simp [ih]

/-- The inner loop of the table fill computes the cells
`dp[i+1][j+1] .. dp[i+1][n]` of the recurrence, given the cell to its left
and the previous row from the diagonal onwards. -/
theorem levRowGo_spec (A B : List Nat) (i : Nat) :
    ∀ (bs : List Nat) (j left : Nat) (prev : List Nat),
      bs = B.drop j →
      prev = (List.range' j (B.length + 1 - j)).map (levCell A B i) →
      left = levCell A B (i + 1) j →
      levRowGo (A.getD i 0) left prev bs
        = (List.range' (j + 1) (B.length - j)).map (levCell A B (i + 1)) := by
  intro bs
  induction bs with
  | nil =>
    intro j left prev hbs hprev hleft
    have hj : B.length ≤ j := List.drop_eq_nil_iff.mp hbs.symm
    rw [Nat.sub_eq_zero_of_le hj]
    subst hprev
    simp [levRowGo]
  | cons b bs ih =>
    intro j left prev hbs hprev hleft
    have hj : j < B.length := by
      by_contra h
      rw [List.drop_eq_nil_of_le (Nat.le_of_not_lt h)] at hbs
      exact List.cons_ne_nil b bs hbs
    rw [List.drop_eq_getElem_cons hj] at hbs
    obtain ⟨hb, hbs'⟩ := List.cons.inj hbs
    have hlen1 : B.length + 1 - j = B.length - j - 1 + 1 + 1 := by omega
    rw [hlen1, List.range'_succ, List.range'_succ, List.map_cons, List.map_cons] at hprev
    subst hprev hleft hb
    simp only [levRowGo, natCase_eq]
    have hcell :
        (if A.getD i 0 = B[j] then levCell A B i j
          else 1 + Nat.min (Nat.min (levCell A B i (j + 1)) (levCell A B (i + 1) j))
            (levCell A B i j)) = levCell A B (i + 1) (j + 1) := by
      rw [levCell_succ_succ, List.getD_eq_getElem B 0 hj]
    rw [hcell]
    have hrec := ih (j + 1) (levCell A B (i + 1) (j + 1))
      (levCell A B i (j + 1) :: (List.range' (j + 1 + 1) (B.length - j - 1)).map (levCell A B i))
      hbs'
      (by
        have h2 : B.length + 1 - (j + 1) = B.length - j - 1 + 1 := by omega
        rw [h2, List.range'_succ, List.map_cons])
      rfl
    rw [hrec]
    have hlen2 : B.length - j = B.length - j - 1 + 1 := by omega
    have hlen3 : B.length - (j + 1) = B.length - j - 1 := by omega
    rw [hlen2, List.range'_succ, List.map_cons, hlen3]

/-- The outer loop of the table fill turns row `i` of the recurrence into
the final row `A.length`. -/
theorem levLoop_spec (A B : List Nat) :
    ∀ (as : List Nat) (i : Nat) (prev : List Nat),
      as = A.drop i → i ≤ A.length →
      prev = (List.range' 0 (B.length + 1)).map (levCell A B i) →
      levLoop B as i prev = (List.range' 0 (B.length + 1)).map (levCell A B A.length) := by
  intro as
  induction as with
  | nil =>
    intro i prev h1 h2 h3
    have := List.drop_eq_nil_iff.mp h1.symm
    have hi : i = A.length := Nat.le_antisymm h2 this
    rw [levLoop, h3, hi]
  | cons a as ih =>
    intro i prev h1 h2 h3
    have hi : i < A.length := by
      by_contra h
      rw [List.drop_eq_nil_of_le (Nat.le_of_not_lt h)] at h1
      exact List.cons_ne_nil a as h1
    rw [List.drop_eq_getElem_cons hi] at h1
    obtain ⟨ha, has⟩ := List.cons.inj h1
    rw [levLoop, levNextRow]
    apply ih (i + 1) _ has hi
    have ha' : a = A.getD i 0 := by rw [List.getD_eq_getElem A 0 hi]; exact ha
    rw [ha']
    have hrow := levRowGo_spec A B i B 0 (i + 1) prev (by rw [List.drop_zero])
      (by rw [h3]; norm_num) (levCell_zero_right A B (i + 1)).symm
    rw [hrow]
    have hlen : B.length + 1 = B.length + 1 - 1 + 1 := by omega
    rw [hlen, List.range'_succ, List.map_cons, levCell_zero_right]
    norm_num

/-- The table fill of `levenshteinDistance` computes the corner cell of the
textbook recurrence on the two code sequences. -/
theorem levenshteinDistance_eq_cell (s t : String) :
    levenshteinDistance s t =
      levCell (toCodes s.data) (toCodes t.data)
        (toCodes s.data).length (toCodes t.data).length := by
  have hrow0 : List.range ((toCodes t.data).length + 1) =
      (List.range' 0 ((toCodes t.data).length + 1)).map
        (levCell (toCodes s.data) (toCodes t.data) 0) := by
    rw [List.range_eq_range']
    have : ∀ x ∈ List.range' 0 ((toCodes t.data).length + 1),
        levCell (toCodes s.data) (toCodes t.data) 0 x = id x :=
      fun x _ => levCell_zero_left _ _ x
    rw [List.map_congr_left this, List.map_id]
  have hloop := levLoop_spec (toCodes s.data) (toCodes t.data) (toCodes s.data) 0
    (List.range ((toCodes t.data).length + 1)) (List.drop_zero _).symm
    (Nat.zero_le _) hrow0
  unfold levenshteinDistance
  show (levLoop (toCodes t.data) (toCodes s.data) 0
      (List.range ((toCodes t.data).length + 1))).getD (toCodes t.data).length 0 = _
  rw [hloop]
  have hlt : (toCodes t.data).length <
      ((List.range' 0 ((toCodes t.data).length + 1)).map
        (levCell (toCodes s.data) (toCodes t.data) (toCodes s.data).length)).length := by
    rw [List.length_map, List.length_range']
    omega
  rw [List.getD_eq_getElem _ 0 hlt, List.getElem_map, List.getElem_range']
  norm_num

/-! ## Claims -/

/-- C9: for all strings `L`, `levenshteinDistance L L = 0`; for all strings
`A` and `B`, `levenshteinDistance A B = levenshteinDistance B A`; and the
result is a non-negative integer (it lives in `Nat`). -/
theorem levenshteinDistance_self_zero_and_symm :
    ∀ A B : String,
      levenshteinDistance A A = 0 ∧
      levenshteinDistance A B = levenshteinDistance B A ∧
      0 ≤ levenshteinDistance A B := by
  intro A B
  refine ⟨?_, ?_, Nat.zero_le _⟩
  · rw [levenshteinDistance_eq_cell]
    exact levCell_diag _ _
  · rw [levenshteinDistance_eq_cell, levenshteinDistance_eq_cell]
    exact levCell_symm _ _ _ _

/-- C1: for every input string (equivalently, for every possible hostname
extraction outcome, covering unparseable input), the risk score of the
analysis result is an integer in `[0, 100]`: scores live in `Nat` (every
signal adds a non-negative amount to the append-only accumulator) and the
final value is clamped at 100. -/
theorem riskScore_bounded :
    ∀ (h : Option String) (u : String),
      (analyzeWith h u).riskScore ≤ 100 ∧
      0 ≤ (analyzeWith h u).riskScore ∧
      (analyzeUrl u).riskScore ≤ 100 := by
  have key : ∀ (h : Option String) (u : String), (analyzeWith h u).riskScore ≤ 100 := by
    intro h u
    cases h with
    | none => simp [analyzeWith, initResult]
    | some host =>
      simp only [analyzeWith]
      exact Nat.min_le_right _ _
  intro h u
  exact ⟨key h u, Nat.zero_le _, key (extractDomain u) u⟩

/-- C7: whenever hostname extraction fails (`extractDomain` yields `null`),
`analyzeUrl` returns the pristine result — not suspicious, score 0, no
reasons, no matched domain — rather than an error (the embedding is a total
function, so no exception is possible). -/
theorem malformed_input_no_verdict :
    ∀ u : String,
      analyzeWith none u = initResult u ∧
      (extractDomain u = none →
        (analyzeUrl u).isSuspicious = false ∧ (analyzeUrl u).riskScore = 0 ∧
        (analyzeUrl u).reasons = [] ∧ (analyzeUrl u).matchedDomain = none ∧
        (analyzeUrl u).url = u) := by
  intro u
  refine ⟨rfl, fun h => ?_⟩
  unfold analyzeUrl
  rw [h]
  exact ⟨rfl, rfl, rfl, rfl, rfl⟩

/-- Witness for C7 at the concrete input `""`: the empty string parses to
an empty host, which the URL constructor rejects. -/
theorem malformed_input_no_verdict_witness :
    (analyzeUrl "").isSuspicious = false ∧ (analyzeUrl "").riskScore = 0 ∧
    (analyzeUrl "").reasons = [] ∧ (analyzeUrl "").matchedDomain = none ∧
    (analyzeUrl "").url = "" :=
  (malformed_input_no_verdict "").2 (by decide)

/-- C2: for every analysis outcome, `reasons` is non-empty iff
`isSuspicious`; `isSuspicious` holds iff some brand-identifying signal set
`matchedDomain` (so the TLD bonus alone never fires, never flags, and never
sets a brand); and a non-suspicious verdict carries empty reasons, no
matched domain, and score 0. -/
theorem verdict_consistency :
    ∀ (h : Option String) (u : String),
      ((analyzeWith h u).reasons ≠ [] ↔ (analyzeWith h u).isSuspicious = true) ∧
      ((analyzeWith h u).isSuspicious = true ↔ (analyzeWith h u).matchedDomain ≠ none) ∧
      ((analyzeWith h u).isSuspicious = false →
        (analyzeWith h u).reasons = [] ∧ (analyzeWith h u).matchedDomain = none ∧
        (analyzeWith h u).riskScore = 0) := by
  intro h u
  cases h with
  | none => simp [analyzeWith, initResult]
  | some host =>
    rcases hs : checkSubdomainTrick host with _ | ⟨re1, md1⟩ <;>
      rcases hb : brandLoop (getBaseDomain host) (normalizeString (getBaseDomain host))
        knownDomains with _ | ⟨p, re2, k⟩ <;>
      simp [analyzeWith, hs, hb, applySubdomainCheck, applyBrandSignal, applyTldBonus,
        initResult] <;>
      split_ifs <;> simp

/-- Witness for C2 in the non-vacuous direction of its implication: a null
hostname yields a non-suspicious result with empty reasons, no matched
domain, and score 0. -/
theorem verdict_consistency_witness :
    (analyzeWith none "example").reasons = [] ∧
    (analyzeWith none "example").matchedDomain = none ∧
    (analyzeWith none "example").riskScore = 0 :=
  (verdict_consistency none "example").2.2 (by decide)

/-- The brand loop stops at the first firing signal, which contributes
exactly 70 (edit distance), 60 (brand embedding), or 90 (homograph). -/
theorem brandLoop_points :
    ∀ (bs : List String) (base norm : String) (p : Nat) (re k : String),
      brandLoop base norm bs = some (p, re, k) → p = 70 ∨ p = 60 ∨ p = 90 := by
  intro bs
  induction bs with
  | nil => intro base norm p re k h; simp [brandLoop] at h
  | cons known rest ih =>
    intro base norm p re k h
    simp only [brandLoop, natCase_eq] at h
    split_ifs at h <;>
      first
      | exact ih _ _ _ _ _ h
      | (simp only [Option.some.injEq, Prod.mk.injEq] at h
         rcases h with ⟨hp, -⟩
         omega)

/-- C10: the final risk score always lies in the finite set
`{0, 60, 70, 80, 90, 100}`: the subdomain trick adds at most one 80, the
brand loop at most one of 70/60/90, the TLD bonus at most one 20 (and only
with a matched brand), and every sum above 100 is clamped to 100. -/
theorem riskScore_quantized :
    ∀ (h : Option String) (u : String),
      (analyzeWith h u).riskScore ∈ ([0, 60, 70, 80, 90, 100] : List Nat) ∧
      (analyzeUrl u).riskScore ∈ ([0, 60, 70, 80, 90, 100] : List Nat) := by
  have key : ∀ (h : Option String) (u : String),
      (analyzeWith h u).riskScore ∈ ([0, 60, 70, 80, 90, 100] : List Nat) := by
    intro h u
    cases h with
    | none => simp [analyzeWith, initResult]
    | some host =>
      rcases hs : checkSubdomainTrick host with _ | ⟨re1, md1⟩ <;>
        rcases hb : brandLoop (getBaseDomain host) (normalizeString (getBaseDomain host))
          knownDomains with _ | ⟨p, re2, k⟩
      · simp [analyzeWith, hs, hb, applySubdomainCheck, applyBrandSignal, applyTldBonus,
          initResult]
      · rcases brandLoop_points _ _ _ _ _ _ hb with rfl | rfl | rfl <;>
          simp [analyzeWith, hs, hb, applySubdomainCheck, applyBrandSignal, applyTldBonus,
            initResult] <;>
          split_ifs <;> simp
      · simp [analyzeWith, hs, hb, applySubdomainCheck, applyBrandSignal, applyTldBonus,
          initResult]
        split_ifs <;> simp
      · rcases brandLoop_points _ _ _ _ _ _ hb with rfl | rfl | rfl <;>
          simp [analyzeWith, hs, hb, applySubdomainCheck, applyBrandSignal, applyTldBonus,
            initResult] <;>
          split_ifs <;> simp
  intro h u
  exact ⟨key h u, key (extractDomain u) u⟩

/-- A single-character global replacement is a character map. -/
theorem replaceAllFuel_single (p r : Char) :
    ∀ (fuel : Nat) (l : List Char), l.length ≤ fuel →
      replaceAllFuel fuel [p] [r] l = replaceChar p r l := by
  intro fuel
  induction fuel with
  | zero =>
    intro l hl
    rw [List.length_eq_zero.mp (Nat.le_zero.mp hl)]
    rfl
  | succ fuel ih =>
    intro l hl
    cases l with
    | nil => rfl
    | cons c rest =>
      have hl' : rest.length ≤ fuel := by
        simp only [List.length_cons] at hl
        omega
      simp only [replaceAllFuel, List.isPrefixOf_cons₂, List.isPrefixOf, Bool.and_true,
        List.length_singleton, List.drop_succ_cons, List.drop_zero, List.singleton_append]
      by_cases hc : p = c
      · rw [if_pos (by simp [hc]), ih rest hl']
        simp [replaceChar, hc.symm]
      · rw [if_neg (by simp [hc]), ih rest hl']
        simp only [replaceChar, List.map_cons]
        rw [if_neg (fun h : c = p => hc h.symm)]

/-- A two-character global replacement is the left-to-right
non-overlapping scan. -/
theorem replaceAllFuel_pair (p q r : Char) :
    ∀ (fuel : Nat) (l : List Char), l.length ≤ fuel →
      replaceAllFuel fuel [p, q] [r] l = replacePair p q r l := by
  intro fuel
  induction fuel with
  | zero =>
    intro l hl
    rw [List.length_eq_zero.mp (Nat.le_zero.mp hl)]
    rfl
  | succ fuel ih =>
    intro l hl
    cases l with
    | nil => rfl
    | cons c rest =>
      cases rest with
      | nil =>
        simp only [replaceAllFuel, List.isPrefixOf_cons₂, List.isPrefixOf, Bool.and_false]
        rw [if_neg (by simp)]
        cases fuel <;> rfl
      | cons d rest' =>
        have h1 : rest'.length ≤ fuel := by
          simp only [List.length_cons] at hl
          omega
        have h2 : (d :: rest').length ≤ fuel := by
          simp only [List.length_cons] at hl ⊢
          omega
        simp only [replaceAllFuel, List.isPrefixOf_cons₂, List.isPrefixOf, Bool.and_true,
          List.length_cons, List.length_nil, List.drop_succ_cons, List.drop_zero,
          List.singleton_append]
        by_cases hc : p = c ∧ q = d
        · rw [if_pos (by simp [hc.1, hc.2]), ih rest' h1]
          simp only [replacePair]
          rw [if_pos ⟨hc.1.symm, hc.2.symm⟩]
        · rw [if_neg (by
              simp only [Bool.and_eq_true, beq_iff_eq]
              exact fun h => hc ⟨h.1, h.2⟩), ih (d :: rest') h2]
          simp only [replacePair]
          rw [if_neg (fun h => hc ⟨h.1.symm, h.2.symm⟩)]

/-- A character replacement leaves a string without the character intact. -/
theorem replaceChar_id (p r : Char) :
    ∀ l : List Char, hasSubstring [p] l = false → replaceChar p r l = l := by
  intro l
  induction l with
  | nil => intro _; rfl
  | cons c rest ih =>
    intro h
    rw [hasSubstring, Bool.or_eq_false_iff] at h
    have hcp : ¬c = p := by
      intro hh
      subst hh
      simp [List.isPrefixOf_cons₂] at h
    have step : replaceChar p r (c :: rest) = (if c = p then r else c) :: replaceChar p r rest :=
      rfl
    rw [step, if_neg hcp, ih h.2]

/-- A two-character replacement leaves a string without the pattern intact. -/
theorem replacePair_id (p q r : Char) :
    ∀ l : List Char, hasSubstring [p, q] l = false → replacePair p q r l = l := by
  intro l
  induction l with
  | nil => intro _; rfl
  | cons c rest ih =>
    intro h
    rw [hasSubstring, Bool.or_eq_false_iff] at h
    cases rest with
    | nil => rfl
    | cons d rest' =>
      have hneg : ¬(c = p ∧ d = q) := by
        rintro ⟨hcp, hdq⟩
        subst hcp
        subst hdq
        simp [List.isPrefixOf_cons₂] at h
      simp only [replacePair]
      rw [if_neg hneg, ih h.2]

/-- C8: `normalizeString` is exactly the spec's ordered substitution list
(lowercase, then 0→o, 1→l, 3→e, 4→a, 5→s, 7→t, 8→b, 9→g, @→a, $→s, rn→m,
vv→w, globally in that order), and any lowercased input free of those
twelve patterns — in particular one made of the non-ASCII confusables of
the `homoglyphs` table, which no substitution mentions — passes through
unchanged. -/
theorem normalizeString_follows_spec :
    ∀ s : String,
      normalizeString s = specNormalize s ∧
      ((∀ pr ∈ specRules, hasSubstring pr.1 (s.data.map Char.toLower) = false) →
        normalizeString s = jsToLower s) := by
  intro s
  have hsingle : ∀ (p r : Char) (l : List Char), jsReplaceAll [p] [r] l = replaceChar p r l :=
    fun p r l => replaceAllFuel_single p r l.length l (Nat.le_refl _)
  have hpair : ∀ (p q r : Char) (l : List Char),
      jsReplaceAll [p, q] [r] l = replacePair p q r l :=
    fun p q r l => replaceAllFuel_pair p q r l.length l (Nat.le_refl _)
  constructor
  · unfold specNormalize specRules
    simp only [List.foldl_cons, List.foldl_nil, hsingle, hpair]
    rfl
  · intro H
    have h0 := H (['0'], ['o']) (by decide)
    have h1 := H (['1'], ['l']) (by decide)
    have h3 := H (['3'], ['e']) (by decide)
    have h4 := H (['4'], ['a']) (by decide)
    have h5 := H (['5'], ['s']) (by decide)
    have h7 := H (['7'], ['t']) (by decide)
    have h8 := H (['8'], ['b']) (by decide)
    have h9 := H (['9'], ['g']) (by decide)
    have hat := H (['@'], ['a']) (by decide)
    have hdl := H (['$'], ['s']) (by decide)
    have hrn := H (['r', 'n'], ['m']) (by decide)
    have hvv := H (['v', 'v'], ['w']) (by decide)
    show normalizeString s = jsToLower s
    unfold normalizeString jsToLower normalizeList
    congr 1
    rw [replaceChar_id _ _ _ h0, replaceChar_id _ _ _ h1, replaceChar_id _ _ _ h3,
      replaceChar_id _ _ _ h4, replaceChar_id _ _ _ h5, replaceChar_id _ _ _ h7,
      replaceChar_id _ _ _ h8, replaceChar_id _ _ _ h9, replaceChar_id _ _ _ hat,
      replaceChar_id _ _ _ hdl, replacePair_id _ _ _ _ hrn, replacePair_id _ _ _ _ hvv]

/-- Witness for C8 at a concrete input made of Cyrillic confusables from the
homoglyph table ("раураӏ" spells paypal with Cyrillic letters): the
normalizer leaves it untouched. -/
theorem normalizeString_follows_spec_witness :
    normalizeString "раураӏ" = jsToLower "раураӏ" :=
  (normalizeString_follows_spec "раураӏ").2 (by decide)

/-- The subdomain scan succeeds exactly when some brand in the list matches
an eligible label. -/
theorem subdomainScan_isSome (parts : List (List Char)) :
    ∀ l : List String, (subdomainScan parts l).isSome = true ↔
      ∃ k ∈ l, subdomainMatches k parts = true := by
  intro l
  induction l with
  | nil => simp [subdomainScan]
  | cons known rest ih =>
    simp only [subdomainScan]
    by_cases h : subdomainMatches known parts = true
    · simp [h]
    · simp only [Bool.not_eq_true] at h
      simp [h, ih]

/-- The subdomain scan returns the first matching brand in list order. -/
theorem subdomainScan_first (parts : List (List Char)) :
    ∀ (l : List String) (k : String), subdomainScan parts l = some k →
      subdomainMatches k parts = true ∧
      ∃ pre post, l = pre ++ k :: post ∧
        ∀ k' ∈ pre, subdomainMatches k' parts = false := by
  intro l
  induction l with
  | nil => intro k h; simp [subdomainScan] at h
  | cons known rest ih =>
    intro k h
    simp only [subdomainScan] at h
    by_cases hm : subdomainMatches known parts = true
    · rw [if_pos hm] at h
      obtain rfl : known = k := Option.some.inj h
      exact ⟨hm, [], rest, rfl, fun k' hk' => absurd hk' (List.not_mem_nil k')⟩
    · rw [if_neg hm] at h
      obtain ⟨hk, pre, post, heq, hpre⟩ := ih k h
      refine ⟨hk, known :: pre, post, by rw [heq]; rfl, fun k' hk' => ?_⟩
      rcases List.mem_cons.mp hk' with rfl | hk''
      · exact Bool.not_eq_true _ ▸ (by simpa using hm)
      · exact hpre k' hk''

/-- C5: the subdomain-trick check fires iff the hostname has more than
three dot-separated labels and some label other than the last two equals a
reference brand or contains it as a substring; the first matching brand in
reference-set order is reported; the signal adds a fixed 80; and on
`https://paypal.com.evil.com` the analysis is suspicious via the subdomain
trick with matched brand "paypal" and score at least 80. -/
theorem subdomain_trick_characterization :
    ∀ hostname : String,
      ((checkSubdomainTrick hostname).isSome = true ↔
        (3 < (splitOnDot hostname.data).length ∧
          ∃ k ∈ knownDomains, subdomainMatches k (splitOnDot hostname.data) = true)) ∧
      (∀ reason known, checkSubdomainTrick hostname = some (reason, known) →
        subdomainMatches known (splitOnDot hostname.data) = true ∧
        reason = "Subdomain trick detected: \"" ++ known ++ "\" used as subdomain" ∧
        ∃ pre post, knownDomains = pre ++ known :: post ∧
          ∀ k' ∈ pre, subdomainMatches k' (splitOnDot hostname.data) = false) ∧
      (∀ (r : AnalysisResult) (pr : String × String),
        (applySubdomainCheck r (some pr)).riskScore = r.riskScore + 80) ∧
      ((analyzeUrl "https://paypal.com.evil.com").isSuspicious = true ∧
        (analyzeUrl "https://paypal.com.evil.com").matchedDomain = some "paypal" ∧
        80 ≤ (analyzeUrl "https://paypal.com.evil.com").riskScore ∧
        ((analyzeUrl "https://paypal.com.evil.com").reasons.any
          fun re => jsIncludes re "Subdomain trick detected") = true) := by
  intro hostname
  refine ⟨?_, ?_, fun r pr => by obtain ⟨a, b⟩ := pr; rfl, ?_⟩
  · unfold checkSubdomainTrick
    by_cases hlen : 3 < (splitOnDot hostname.data).length
    · rw [if_pos hlen]
      have hiff := subdomainScan_isSome (splitOnDot hostname.data) knownDomains
      cases hscan : subdomainScan (splitOnDot hostname.data) knownDomains with
      | none =>
        rw [hscan] at hiff
        simp only [Option.isSome_none, Bool.false_eq_true, false_iff] at hiff
        simp [hlen, hiff]
      | some k =>
        rw [hscan] at hiff
        simp only [Option.isSome_some, true_iff] at hiff
        simp [hlen, hiff]
    · rw [if_neg hlen]
      simp [hlen]
  · intro reason known h
    unfold checkSubdomainTrick at h
    by_cases hlen : 3 < (splitOnDot hostname.data).length
    · rw [if_pos hlen] at h
      cases hscan : subdomainScan (splitOnDot hostname.data) knownDomains with
      | none => rw [hscan] at h; simp at h
      | some k =>
        rw [hscan] at h
        simp only [Option.some.injEq, Prod.mk.injEq] at h
        obtain ⟨hre, hk⟩ := h
        subst hk
        obtain ⟨hmatch, pre, post, heq, hpre⟩ := subdomainScan_first _ _ _ hscan
        exact ⟨hmatch, hre.symm, pre, post, heq, hpre⟩
    · rw [if_neg hlen] at h
      simp at h
  · decide

/-- Witness for C5: instantiating the first-match characterization at the
concrete hostname `paypal.com.evil.com`. -/
theorem subdomain_trick_characterization_witness :
    subdomainMatches "paypal" (splitOnDot "paypal.com.evil.com".data) = true ∧
    "Subdomain trick detected: \"paypal\" used as subdomain" =
      "Subdomain trick detected: \"" ++ "paypal" ++ "\" used as subdomain" ∧
    ∃ pre post, knownDomains = pre ++ "paypal" :: post ∧
      ∀ k' ∈ pre, subdomainMatches k' (splitOnDot "paypal.com.evil.com".data) = false :=
  (subdomain_trick_characterization "paypal.com.evil.com").2.1
    "Subdomain trick detected: \"paypal\" used as subdomain" "paypal" (by decide)

/-- C4: `analyzeUrl "https://g00gle.com"` is suspicious with matched brand
"google", score at least 90, and its only reason is the homograph-attack
message (the normalized base label equals "google" exactly, so the
homograph signal fires, not the edit-distance signal). -/
theorem g00gle_homograph_detection :
    (analyzeUrl "https://g00gle.com").isSuspicious = true ∧
    (analyzeUrl "https://g00gle.com").matchedDomain = some "google" ∧
    90 ≤ (analyzeUrl "https://g00gle.com").riskScore ∧
    (analyzeUrl "https://g00gle.com").reasons = ["Homograph attack: looks like \"google\""] ∧
    ((analyzeUrl "https://g00gle.com").reasons.any
      fun re => jsIncludes re "Homograph attack") = true ∧
    normalizeString (getBaseDomain "g00gle.com") = "google" := by
  decide

/-- C6: `analyzeUrl "https://paypal-security-update.xyz"` is suspicious
with score exactly 60 + 20 = 80: the brand-embedding signal (base label
strictly contains "paypal") plus the suspicious-TLD bonus for `.xyz` with a
matched brand. -/
theorem paypal_security_update_score :
    (analyzeUrl "https://paypal-security-update.xyz").isSuspicious = true ∧
    (analyzeUrl "https://paypal-security-update.xyz").riskScore = 60 + 20 ∧
    (analyzeUrl "https://paypal-security-update.xyz").matchedDomain = some "paypal" ∧
    (analyzeUrl "https://paypal-security-update.xyz").reasons =
      ["Contains brand name \"paypal\"", "Suspicious TLD: .xyz"] := by
  decide

set_option maxRecDepth 200000 in
set_option maxHeartbeats 1600000 in
/-- Brand slice 1 of the reference set analyzes clean. -/
theorem brandsSafe_chunk1 :
    (["google", "facebook", "amazon", "apple", "microsoft", "netflix"].all brandUrlSafe)
      = true := by
  decide

set_option maxRecDepth 200000 in
set_option maxHeartbeats 1600000 in
/-- Brand slice 2 of the reference set analyzes clean. -/
theorem brandsSafe_chunk2 :
    (["paypal", "instagram", "twitter", "linkedin", "youtube", "whatsapp"].all brandUrlSafe)
      = true := by
  decide

set_option maxRecDepth 200000 in
set_option maxHeartbeats 1600000 in
/-- Brand slice 3 of the reference set analyzes clean. -/
theorem brandsSafe_chunk3 :
    (["telegram", "reddit", "github", "stackoverflow", "dropbox", "spotify"].all brandUrlSafe)
      = true := by
  decide

set_option maxRecDepth 200000 in
set_option maxHeartbeats 1600000 in
/-- Brand slice 4 of the reference set analyzes clean. -/
theorem brandsSafe_chunk4 :
    (["adobe", "salesforce", "oracle", "ibm", "intel", "nvidia"].all brandUrlSafe)
      = true := by
  decide

set_option maxRecDepth 200000 in
set_option maxHeartbeats 1600000 in
/-- Brand slice 5 of the reference set analyzes clean. -/
theorem brandsSafe_chunk5 :
    (["samsung", "sony", "walmart", "ebay", "alibaba", "zoom"].all brandUrlSafe)
      = true := by
  decide

set_option maxRecDepth 200000 in
set_option maxHeartbeats 1600000 in
/-- Brand slice 6 of the reference set analyzes clean. -/
theorem brandsSafe_chunk6 :
    (["slack", "discord", "twitch", "pinterest", "snapchat", "tiktok"].all brandUrlSafe)
      = true := by
  decide

set_option maxRecDepth 200000 in
set_option maxHeartbeats 1600000 in
/-- Brand slice 7 of the reference set analyzes clean. -/
theorem brandsSafe_chunk7 :
    (["uber", "airbnb", "booking", "expedia", "chase", "bankofamerica"].all brandUrlSafe)
      = true := by
  decide

set_option maxRecDepth 200000 in
set_option maxHeartbeats 1600000 in
/-- Brand slice 8 of the reference set analyzes clean. -/
theorem brandsSafe_chunk8 :
    (["wellsfargo", "citibank", "hsbc", "barclays", "capitalone", "americanexpress"].all
      brandUrlSafe) = true := by
  decide

set_option maxRecDepth 200000 in
set_option maxHeartbeats 1600000 in
/-- Brand slice 9 of the reference set analyzes clean. -/
theorem brandsSafe_chunk9 :
    (["visa", "mastercard", "coinbase", "binance", "kraken", "blockchain"].all brandUrlSafe)
      = true := by
  decide

set_option maxRecDepth 200000 in
set_option maxHeartbeats 1600000 in
/-- Brand slice 10 of the reference set analyzes clean. -/
theorem brandsSafe_chunk10 :
    (["metamask", "opensea", "steam", "epicgames", "roblox", "minecraft"].all brandUrlSafe)
      = true := by
  decide

set_option maxRecDepth 200000 in
set_option maxHeartbeats 1600000 in
/-- Brand slice 11 of the reference set analyzes clean. -/
theorem brandsSafe_chunk11 :
    (["playstation", "xbox", "nintendo", "att", "verizon", "tmobile"].all brandUrlSafe)
      = true := by
  decide

set_option maxRecDepth 200000 in
set_option maxHeartbeats 1600000 in
/-- Brand slice 12 of the reference set analyzes clean. -/
theorem brandsSafe_chunk12 :
    (["comcast", "spectrum"].all brandUrlSafe) = true := by
  decide

/-- C3: for every brand in the reference set, analyzing
`https://<brand>.com` is not suspicious: the exact-match skip excludes the
brand itself and no other brand triggers any signal on that hostname. -/
theorem reference_brands_not_flagged :
    ∀ B ∈ knownDomains, (analyzeUrl ("https://" ++ B ++ ".com")).isSuspicious = false := by
  have hsplit : knownDomains =
      ["google", "facebook", "amazon", "apple", "microsoft", "netflix"] ++
      ["paypal", "instagram", "twitter", "linkedin", "youtube", "whatsapp"] ++
      ["telegram", "reddit", "github", "stackoverflow", "dropbox", "spotify"] ++
      ["adobe", "salesforce", "oracle", "ibm", "intel", "nvidia"] ++
      ["samsung", "sony", "walmart", "ebay", "alibaba", "zoom"] ++
      ["slack", "discord", "twitch", "pinterest", "snapchat", "tiktok"] ++
      ["uber", "airbnb", "booking", "expedia", "chase", "bankofamerica"] ++
      ["wellsfargo", "citibank", "hsbc", "barclays", "capitalone", "americanexpress"] ++
      ["visa", "mastercard", "coinbase", "binance", "kraken", "blockchain"] ++
      ["metamask", "opensea", "steam", "epicgames", "roblox", "minecraft"] ++
      ["playstation", "xbox", "nintendo", "att", "verizon", "tmobile"] ++
      ["comcast", "spectrum"] := rfl
  have hall : knownDomains.all brandUrlSafe = true := by
    rw [hsplit]
    simp only [List.all_append, Bool.and_eq_true]
    exact ⟨⟨⟨⟨⟨⟨⟨⟨⟨⟨⟨brandsSafe_chunk1, brandsSafe_chunk2⟩, brandsSafe_chunk3⟩,
      brandsSafe_chunk4⟩, brandsSafe_chunk5⟩, brandsSafe_chunk6⟩, brandsSafe_chunk7⟩,
      brandsSafe_chunk8⟩, brandsSafe_chunk9⟩, brandsSafe_chunk10⟩, brandsSafe_chunk11⟩,
      brandsSafe_chunk12⟩
  intro B hB
  have hB' := List.all_eq_true.mp hall B hB
  simpa [brandUrlSafe] using hB'

/-- Witness for C3 at the concrete brand "google". -/
theorem reference_brands_not_flagged_witness :
    (analyzeUrl ("https://" ++ "google" ++ ".com")).isSuspicious = false :=
  reference_brands_not_flagged "google" (by decide)

end SafeSurfer
